import Mathlib

/-!
Verification of the bytecode-cache core of `src/bytenode/lib/index.js`
against its natural-language specification.

Modelling conventions (shallow embedding):
* A Node `Buffer` is a `List Nat` of byte values; `Buffer.subarray(a, b)`
  clamps to the buffer bounds, which `List.drop`/`List.take` do as well.
* A JavaScript value that may or may not be a `Buffer` is a `JSVal`.
* The V8 engine (`vm.Script`, `createCachedData`, `runInThisContext`) and
  zlib's brotli are external opaque components: they enter the model as
  function parameters, and engine guarantees appear as explicit hypotheses.
* `fixBytecode`'s version dispatch on `process.version` is modelled by the
  closed set of compatibility buckets the spec names: the `v8.8`/`v8.9`
  prefix test selects `legacy`, `parseFloat(version) in [12, 20]` selects
  `modern`, anything else selects `catchAll`.
-/

namespace Bytenode

/-- A JavaScript value as seen by `isBufferV8Bytecode`: either a `Buffer`
holding a list of byte values, or any non-Buffer value. -/
inductive JSVal where
  | buf (bytes : List Nat)
  | nonBuffer
deriving DecidableEq

/-- Model of `Buffer.prototype.subarray(a, b)`: the bytes from offset `a`
inclusive to `b` exclusive, clamped to the buffer's bounds. -/
def subarray (l : List Nat) (a b : Nat) : List Nat :=
  (l.drop a).take (b - a)

/-- Source line 19: `MAGIC_NUMBER = Buffer.from([0xde, 0xc0])`. -/
def MAGIC_NUMBER : List Nat := [0xde, 0xc0]

/-- Source line 20: `ZERO_LENGTH_EXTERNAL_REFERENCE_TABLE = Buffer.alloc(2)`. -/
def ZERO_LENGTH_EXTERNAL_REFERENCE_TABLE : List Nat := [0, 0]

/-- Source lines 50-59, `isBufferV8Bytecode(buffer)`: `Buffer.isBuffer(buffer)`
and the subarray at 0-1 is not the all-zero sentinel and the subarray at 2-3
equals the magic marker.  `Buffer.equals` is byte-list equality (and is false
when the lengths differ, which happens on buffers shorter than 4 bytes because
`subarray` clamps). -/
def isBufferV8Bytecode (v : JSVal) : Bool :=
  match v with
  | .nonBuffer => false
  | .buf buffer =>
      !(decide (subarray buffer 0 2 = ZERO_LENGTH_EXTERNAL_REFERENCE_TABLE)) &&
      decide (subarray buffer 2 4 = MAGIC_NUMBER)

/-- The compatibility buckets of `fixBytecode`/`readSourceHash` (spec §3,
"Compatibility bucket").  `legacy` is the `v8.8`/`v8.9` prefix branch,
`modern` the `version >= 12 && version <= 20` branch, `catchAll` the final
`else` branch. -/
inductive Bucket where
  | legacy
  | modern
  | catchAll
deriving DecidableEq

/-- Little-endian value of a byte list, as computed by the source's
`reduce((sum, number, power) => sum += number * Math.pow(256, power), 0)`.
For at most 4 bytes the float computation is exact, so `Nat` is faithful. -/
def leNum (l : List Nat) : Nat :=
  l.foldr (fun b acc => b + 256 * acc) 0

/-- Source lines 175-188, `readSourceHash(bytecodeBuffer)`: the little-endian
value of bytes 12-15 in the legacy bucket, of bytes 8-11 otherwise. -/
def readSourceHash (bucket : Bucket) (buf : List Nat) : Nat :=
  match bucket with
  | .legacy => leNum (subarray buf 12 16)
  | .modern => leNum (subarray buf 8 12)
  | .catchAll => leNum (subarray buf 8 12)

/-- The zero-width space U+200B used as placeholder filler (source line 38). -/
def zeroWidthSpace : Char := '\u200B'

/-- Source lines 35-39 of `generateScript`: the placeholder (`dummyCode`)
built from the declared source length: empty unless `length > 1`, otherwise a
quote, `length - 2` zero-width spaces, and a closing quote.  Every character
involved is in the basic multilingual plane, so one list element is one
UTF-16 code unit. -/
def dummyCode (length : Nat) : List Char :=
  if length > 1 then
    '"' :: (List.replicate (length - 2) zeroWidthSpace ++ ['"'])
  else
    []

/-- Model of `src.copy(tgt, ts)` (Node `Buffer.prototype.copy`): the bytes of
`src` overwrite `tgt` starting at offset `ts`, clamped to `tgt`'s length;
every other byte of `tgt` is kept and the length never changes. -/
def bufCopy (src tgt : List Nat) (ts : Nat) : List Nat :=
  List.ofFn (fun i : Fin tgt.length =>
    if ts ≤ i.val ∧ i.val < ts + src.length then src.getD (i.val - ts) 0 else tgt.get i)

/-- The fixed reference source `'"ಠ_ಠ"'` compiled by `fixBytecode` (line 159). -/
def refSource : List Char := "\"ಠ_ಠ\"".toList

/-- The start offsets of the 4-byte ranges each bucket patches, in the order
the source copies them (lines 162-171). -/
def bucketStarts : Bucket → List Nat
  | .legacy => [16, 20]
  | .modern => [12]
  | .catchAll => [12, 16]

/-- First byte offset a bucket patches; with `bucketEnd` this bounds the single
contiguous region each bucket touches. -/
def bucketLo : Bucket → Nat
  | .legacy => 16
  | .modern => 12
  | .catchAll => 12

/-- One past the last byte offset a bucket patches. -/
def bucketEnd : Bucket → Nat
  | .legacy => 24
  | .modern => 16
  | .catchAll => 20

/-- Source lines 154-172, `fixBytecode(bytecodeBuffer)`: compile the fixed
reference source in-process (`compileCode` with `compress` omitted, hence no
compression: the raw engine output `engineCompile refSource`), then copy its
bucket-selected 4-byte subarrays into the target at the same offsets.
`engineCompile` stands for the opaque V8 compile-and-extract-cached-data
step of `compileCode`. -/
def fixBytecode (engineCompile : List Char → List Nat) (bucket : Bucket)
    (buf : List Nat) : List Nat :=
  let dummyBytecode := engineCompile refSource
  match bucket with
  | .legacy =>
      bufCopy (subarray dummyBytecode 20 24)
        (bufCopy (subarray dummyBytecode 16 20) buf 16) 20
  | .modern =>
      bufCopy (subarray dummyBytecode 12 16) buf 12
  | .catchAll =>
      bufCopy (subarray dummyBytecode 16 20)
        (bufCopy (subarray dummyBytecode 12 16) buf 12) 16

/-- Errors the load path can raise (spec §7 taxonomy): `invalidBytecode` is
the `ok(..., 'Invalid bytecode buffer')` assertion after a decompression that
produced a still-invalid buffer, `decompressFailed` is `brotliDecompressSync`
itself throwing, `cachedDataRejected` is the `cachedDataRejected` throw. -/
inductive LoadErr where
  | invalidBytecode
  | decompressFailed
  | cachedDataRejected
deriving DecidableEq

/-- Source lines 67-83, `compileCode(javascriptCode, compress)`: the engine
compiles the source and yields its cached data (`engineCompile`, covering the
`createCachedData`/`cachedData` probe), then brotli is applied when
`compress` is truthy.  Only string inputs are modelled; the claims never
exercise the `typeof` guard. -/
def compileCode (engineCompile : List Char → List Nat)
    (brotliCompress : List Nat → List Nat) (javascriptCode : List Char)
    (compress : Bool) : List Nat :=
  if compress then brotliCompress (engineCompile javascriptCode)
  else engineCompile javascriptCode

/-- Source lines 23-48, `generateScript(cachedData, filename)`: validate,
otherwise brotli-decompress and re-validate (asserting validity), then fix
the bytecode in place, read the declared source length from the fixed
buffer, synthesize the placeholder, and hand placeholder plus cached data to
`vm.Script`; the engine's accept/reject verdict is the opaque `accepts`.
The result models the script as (placeholder text, cached data). -/
def generateScript (engineCompile : List Char → List Nat)
    (brotliDecompress : List Nat → Option (List Nat))
    (accepts : List Char → List Nat → Bool) (bucket : Bucket)
    (cachedData : List Nat) : Except LoadErr (List Char × List Nat) :=
  let checked : Except LoadErr (List Nat) :=
    if isBufferV8Bytecode (.buf cachedData) then .ok cachedData
    else
      match brotliDecompress cachedData with
      | none => .error .decompressFailed
      | some decompressed =>
          if isBufferV8Bytecode (.buf decompressed) then .ok decompressed
          else .error .invalidBytecode
  match checked with
  | .error e => .error e
  | .ok data =>
      let fixed := fixBytecode engineCompile bucket data
      let length := readSourceHash bucket fixed
      let dummy := dummyCode length
      if accepts dummy fixed then .ok (dummy, fixed)
      else .error .cachedDataRejected

/-- Source lines 195-203, `runBytecode(bytecodeBuffer)`: build the script via
`generateScript` and run it in the current context; `runCached` is the opaque
engine execution of the compiled unit carried by the cached data. -/
def runBytecode {V : Type} (engineCompile : List Char → List Nat)
    (brotliDecompress : List Nat → Option (List Nat))
    (accepts : List Char → List Nat → Bool) (runCached : List Nat → V)
    (bucket : Bucket) (bytecodeBuffer : List Nat) : Except LoadErr V :=
  (generateScript engineCompile brotliDecompress accepts bucket
    bytecodeBuffer).map (fun script => runCached script.2)

/-- A concrete stand-in engine used by witnesses: a valid header (non-zero
sentinel, magic marker, little-endian source length at bytes 8-11, constant
flag bytes at 12-23) followed by the encoded source. -/
def toyCompile (sourceText : List Char) : List Nat :=
  [1, 0, 0xde, 0xc0, 0, 0, 0, 0] ++
    [sourceText.length % 256, sourceText.length / 256 % 256,
      sourceText.length / 65536 % 256, sourceText.length / 16777216 % 256] ++
    [9, 9, 9, 9, 8, 8, 8, 8, 7, 7, 7, 7] ++ sourceText.map Char.toNat

/-- The stand-in engine accepts cached data exactly when the supplied source
text's length matches the buffer's declared source length, as V8's
length-based consistency check does. -/
def toyAccepts (sourceText : List Char) (cachedData : List Nat) : Bool :=
  sourceText.length == readSourceHash .modern cachedData

/-- The stand-in engine's observable execution result: the length of the
source encoded past the 24-byte header. -/
def toyRun (cachedData : List Nat) : Nat :=
  cachedData.length - 24

/-- Concrete source text used by witnesses. -/
def srcW : List Char := ['1', '+', '1']

/-- The value `compileElectronCode` receives in its `options` parameter.
`compileFile` (line 266) calls `compileElectronCode(code, compress, ...)`, so
the parameter can be a boolean, not only an options object or `undefined`. -/
inductive JSOptionsArg where
  | obj (compress : Bool) (electronPathSet : Bool)
  | boolVal (b : Bool)
  | undef
deriving DecidableEq

/-- The value of `options.compress` inside `onEnd` (line 97): a real options
object yields its `compress` field; after `options = options || {}` a falsy
argument has become `{}` whose `compress` is `undefined`, and a truthy
boolean keeps `options` a boolean whose `compress` property is likewise
`undefined`; `undefined` is falsy. -/
def optCompress : JSOptionsArg → Bool
  | .obj c _ => c
  | .boolVal _ => false
  | .undef => false

/-- Events the parent observes from the spawned child, in arrival order:
stdout `data`/`error`/`end`, process `exit` (with code), process `error`. -/
inductive CEvent where
  | stdoutData (chunk : List Nat)
  | stdoutError
  | stdoutEnd
  | exited (code : Int)
  | procError
deriving DecidableEq

/-- Rejection values of the `compileElectronCode` promise: only the child
process `error` handler (line 148) rejects, with the underlying error. -/
inductive PromiseErr where
  | procSpawnError
deriving DecidableEq

deriving instance DecidableEq for Except

/-- Promise plus accumulator state of `compileElectronCode`: the mutable
`data` closure variable, and the settlement (`none` while pending). -/
structure CEState where
  data : List Nat
  settled : Option (Except PromiseErr (List Nat))
deriving DecidableEq

/-- A promise settles at most once; later `resolve`/`reject` calls are inert. -/
def settle (s : CEState) (r : Except PromiseErr (List Nat)) : CEState :=
  match s.settled with
  | some _ => s
  | none => { s with settled := some r }

/-- Source lines 96-100, `onEnd()`: reassign `data` to its brotli compression
when `options.compress` is truthy, then `resolve(data)`. -/
def onEnd (brotliCompress : List Nat → List Nat) (compress : Bool)
    (s : CEState) : CEState :=
  let d := if compress then brotliCompress s.data else s.data
  settle { s with data := d } (.ok d)

/-- One event-handler step of `compileElectronCode` (lines 126-149):
stdout `data` appends the chunk; stdout `error` only logs; `onEnd` is
registered on BOTH stdout `end` (line 133) and process `exit` (line 149),
with the exit code ignored; the process `error` handler rejects. -/
def step (brotliCompress : List Nat → List Nat) (compress : Bool)
    (s : CEState) : CEvent → CEState
  | .stdoutData chunk => { s with data := s.data ++ chunk }
  | .stdoutError => s
  | .stdoutEnd => onEnd brotliCompress compress s
  | .exited _ => onEnd brotliCompress compress s
  | .procError => settle s (.error .procSpawnError)

/-- The state before any child event: empty `data`, pending promise. -/
def initialState : CEState := { data := [], settled := none }

/-- Folding the child's event sequence through the registered handlers. -/
def runEvents (brotliCompress : List Nat → List Nat) (compress : Bool)
    (events : List CEvent) : CEState :=
  events.foldl (step brotliCompress compress) initialState

/-- Whether an event trace contains a process `exit` event. -/
def hasExited (events : List CEvent) : Bool :=
  events.any (fun e => match e with | .exited _ => true | _ => false)

/-- A trace prefix consisting only of stdout `data` events. -/
def isDataOnly (events : List CEvent) : Bool :=
  events.all (fun e => match e with | .stdoutData _ => true | _ => false)

/-- The bytes accumulated from the stdout `data` events of a trace. -/
def collectData (events : List CEvent) : List Nat :=
  events.flatMap (fun e => match e with | .stdoutData chunk => chunk | _ => [])

/-- Source line 266: `compileFile` computes the buffer it writes; on the
electron path it awaits `compileElectronCode(code, compress, { electronPath })`
— the `compress` flag lands in the `options` parameter and the object
carrying `electronPath` is a discarded third argument — otherwise it calls
`compileCode(code, compress)`.  The electron child's behaviour is summarized
by its event trace, assumed here to deliver output then end/exit normally. -/
def compileFileBuffer (engineCompile : List Char → List Nat)
    (brotliCompress : List Nat → List Nat) (code : List Char)
    (electron compress : Bool) (childChunks : List (List Nat)) :
    Option (Except PromiseErr (List Nat)) :=
  if electron then
    (runEvents brotliCompress (optCompress (.boolVal compress))
      (childChunks.map .stdoutData ++ [.stdoutEnd, .exited 0])).settled
  else
    some (.ok (compileCode engineCompile brotliCompress code compress))

end Bytenode

namespace Bytenode

/-- C4: the validator accepts a buffer exactly when bytes 2-3 are the magic
marker `0xde 0xc0` and bytes 0-1 are not both zero. -/
theorem isBufferV8Bytecode_iff_magic_and_sentinel (b : List Nat) :
    isBufferV8Bytecode (.buf b) = true ↔
      ((b[2]? = some 0xde ∧ b[3]? = some 0xc0) ∧
        ¬(b[0]? = some 0 ∧ b[1]? = some 0)) := by
  match b with
  | [] => simp [isBufferV8Bytecode, subarray, MAGIC_NUMBER,
      ZERO_LENGTH_EXTERNAL_REFERENCE_TABLE]
  | [b0] => simp [isBufferV8Bytecode, subarray, MAGIC_NUMBER,
      ZERO_LENGTH_EXTERNAL_REFERENCE_TABLE]
  | [b0, b1] => simp [isBufferV8Bytecode, subarray, MAGIC_NUMBER,
      ZERO_LENGTH_EXTERNAL_REFERENCE_TABLE]
  | [b0, b1, b2] => simp [isBufferV8Bytecode, subarray, MAGIC_NUMBER,
      ZERO_LENGTH_EXTERNAL_REFERENCE_TABLE]
  | b0 :: b1 :: b2 :: b3 :: rest =>
      simp [isBufferV8Bytecode, subarray, MAGIC_NUMBER,
        ZERO_LENGTH_EXTERNAL_REFERENCE_TABLE, List.take_cons, and_assoc]
      tauto

/-- Witness for C4 at a concrete valid buffer. -/
theorem isBufferV8Bytecode_iff_magic_and_sentinel_witness :
    isBufferV8Bytecode (.buf [1, 0, 0xde, 0xc0, 5]) = true ↔
      ((([1, 0, 0xde, 0xc0, 5] : List Nat)[2]? = some 0xde ∧
          ([1, 0, 0xde, 0xc0, 5] : List Nat)[3]? = some 0xc0) ∧
        ¬(([1, 0, 0xde, 0xc0, 5] : List Nat)[0]? = some 0 ∧
          ([1, 0, 0xde, 0xc0, 5] : List Nat)[1]? = some 0)) :=
  isBufferV8Bytecode_iff_magic_and_sentinel [1, 0, 0xde, 0xc0, 5]

/-- C10: the validator returns `false` (rather than faulting) on every
non-Buffer value and on every buffer shorter than 4 bytes; a clamped
subarray past the end compares unequal to the 2-byte magic marker. -/
theorem isBufferV8Bytecode_nonbuffer_short :
    (∀ v : JSVal, (∀ b, v ≠ .buf b) → isBufferV8Bytecode v = false) ∧
      (∀ b : List Nat, b.length < 4 → isBufferV8Bytecode (.buf b) = false) := by
  constructor
  · intro v hv
    match v with
    | .nonBuffer => rfl
    | .buf b => exact absurd rfl (hv b)
  · intro b hb
    have hlen : (subarray b 2 4).length < 2 := by
      simp only [subarray, List.length_take, List.length_drop]
      omega
    have hne : subarray b 2 4 ≠ MAGIC_NUMBER := by
      intro h
      rw [h] at hlen
      simp [MAGIC_NUMBER] at hlen
    simp [isBufferV8Bytecode, hne]

/-- Witness for C10 at a non-Buffer value and a 3-byte buffer. -/
theorem isBufferV8Bytecode_nonbuffer_short_witness :
    isBufferV8Bytecode .nonBuffer = false ∧
      isBufferV8Bytecode (.buf [0xde, 0xc0, 0xde]) = false := by
  constructor
  · exact isBufferV8Bytecode_nonbuffer_short.1 .nonBuffer (fun b h => by cases h)
  · exact isBufferV8Bytecode_nonbuffer_short.2 [0xde, 0xc0, 0xde] (by decide)

/-- C3 counterexample: a buffer whose source-length field reads 1 (here in
the modern bucket, field at bytes 8-11) produces a placeholder of 0 code
units, not the 1 code unit the claim demands for every L ≥ 0. -/
theorem dummyCode_length_one_cex :
    readSourceHash .modern [1, 0, 0xde, 0xc0, 0, 0, 0, 0, 1, 0, 0, 0] = 1 ∧
      (dummyCode (readSourceHash .modern
        [1, 0, 0xde, 0xc0, 0, 0, 0, 0, 1, 0, 0, 0])).length ≠ 1 := by
  decide

/-- C3 amended: the placeholder read from the source-length field is empty
whenever the declared length L is at most 1, and has exactly L code units
(two quote delimiters around L − 2 filler units) whenever L ≠ 1; at L = 1
the placeholder is empty, so it has 0 code units rather than exactly L. -/
theorem dummyCode_length_amended (bucket : Bucket) (buf : List Nat) :
    (readSourceHash bucket buf ≤ 1 → dummyCode (readSourceHash bucket buf) = []) ∧
      (readSourceHash bucket buf ≠ 1 →
        (dummyCode (readSourceHash bucket buf)).length = readSourceHash bucket buf) := by
  set L := readSourceHash bucket buf with hL
  constructor
  · intro h
    have : ¬(L > 1) := by omega
    simp [dummyCode, this]
  · intro h
    by_cases h1 : L > 1
    · simp [dummyCode, h1]
      omega
    · have hz : L = 0 := by omega
      simp [dummyCode, hz]

theorem bufCopy_length (src tgt : List Nat) (ts : Nat) :
    (bufCopy src tgt ts).length = tgt.length := by
  simp [bufCopy]

theorem subarray_length (l : List Nat) (a b : Nat) :
    (subarray l a b).length = min (b - a) (l.length - a) := by
  simp [subarray]

theorem getElem?_subarray (l : List Nat) (a b j : Nat) (h : j < b - a) :
    (subarray l a b)[j]? = l[a + j]? := by
  rw [subarray, List.getElem?_take, if_pos h, List.getElem?_drop]

theorem bufCopy_getElem?_out (src tgt : List Nat) (ts i : Nat)
    (h : i < ts ∨ ts + src.length ≤ i) :
    (bufCopy src tgt ts)[i]? = tgt[i]? := by
  by_cases hi : i < tgt.length
  · rw [bufCopy, List.getElem?_ofFn]
    have hcond : ¬(ts ≤ i ∧ i < ts + src.length) := by omega
    simp [List.ofFnNthVal, hi, hcond, List.getElem?_eq_getElem hi, List.get_eq_getElem]
  · have h1 : tgt[i]? = none := List.getElem?_eq_none (by omega)
    have h2 : (bufCopy src tgt ts)[i]? = none := by
      apply List.getElem?_eq_none
      rw [bufCopy_length]
      omega
    rw [h1, h2]

theorem bufCopy_getElem?_in (src tgt : List Nat) (ts i : Nat)
    (h1 : ts ≤ i) (h2 : i < ts + src.length) (h3 : i < tgt.length) :
    (bufCopy src tgt ts)[i]? = src[i - ts]? := by
  rw [bufCopy, List.getElem?_ofFn]
  have hcond : ts ≤ i ∧ i < ts + src.length := ⟨h1, h2⟩
  have hsrc : i - ts < src.length := by omega
  simp [List.ofFnNthVal, h3, hcond, List.getD_eq_getElem src 0 hsrc,
    List.getElem?_eq_getElem hsrc]

/-- Inside a patched range, `fixBytecode` places exactly the reference
buffer's byte, provided the reference and target reach past the bucket's
last patched offset. -/
theorem fixBytecode_getElem?_in (engineCompile : List Char → List Nat)
    (bucket : Bucket) (buf : List Nat) (s i : Nat)
    (hd : bucketEnd bucket ≤ (engineCompile refSource).length)
    (hb : bucketEnd bucket ≤ buf.length)
    (hs : s ∈ bucketStarts bucket) (hlo : s ≤ i) (hhi : i < s + 4) :
    (fixBytecode engineCompile bucket buf)[i]? = (engineCompile refSource)[i]? := by
  match bucket with
  | .legacy =>
      simp only [bucketStarts, List.mem_cons, List.mem_singleton,
        List.not_mem_nil, or_false] at hs
      simp only [bucketEnd] at hd hb
      have hs1 : (subarray (engineCompile refSource) 16 20).length = 4 := by
        rw [subarray_length]; omega
      have hs2 : (subarray (engineCompile refSource) 20 24).length = 4 := by
        rw [subarray_length]; omega
      simp only [fixBytecode]
      rcases hs with hs | hs
      · subst hs
        rw [bufCopy_getElem?_out _ _ _ _ (Or.inl (by omega))]
        rw [bufCopy_getElem?_in _ _ _ _ (by omega) (by omega) (by omega)]
        rw [getElem?_subarray _ _ _ _ (by omega)]
        congr 1
        omega
      · subst hs
        rw [bufCopy_getElem?_in _ _ _ _ (by omega) (by omega)
          (by rw [bufCopy_length]; omega)]
        rw [getElem?_subarray _ _ _ _ (by omega)]
        congr 1
        omega
  | .modern =>
      simp only [bucketStarts, List.mem_singleton] at hs
      subst hs
      simp only [bucketEnd] at hd hb
      have hs1 : (subarray (engineCompile refSource) 12 16).length = 4 := by
        rw [subarray_length]; omega
      simp only [fixBytecode]
      rw [bufCopy_getElem?_in _ _ _ _ (by omega) (by omega) (by omega)]
      rw [getElem?_subarray _ _ _ _ (by omega)]
      congr 1
      omega
  | .catchAll =>
      simp only [bucketStarts, List.mem_cons, List.mem_singleton,
        List.not_mem_nil, or_false] at hs
      simp only [bucketEnd] at hd hb
      have hs1 : (subarray (engineCompile refSource) 12 16).length = 4 := by
        rw [subarray_length]; omega
      have hs2 : (subarray (engineCompile refSource) 16 20).length = 4 := by
        rw [subarray_length]; omega
      simp only [fixBytecode]
      rcases hs with hs | hs
      · subst hs
        rw [bufCopy_getElem?_out _ _ _ _ (Or.inl (by omega))]
        rw [bufCopy_getElem?_in _ _ _ _ (by omega) (by omega) (by omega)]
        rw [getElem?_subarray _ _ _ _ (by omega)]
        congr 1
        omega
      · subst hs
        rw [bufCopy_getElem?_in _ _ _ _ (by omega) (by omega)
          (by rw [bufCopy_length]; omega)]
        rw [getElem?_subarray _ _ _ _ (by omega)]
        congr 1
        omega

/-- Outside the bucket's contiguous patched region, `fixBytecode` keeps the
target's byte; no length hypotheses needed since copies clamp. -/
theorem fixBytecode_getElem?_out (engineCompile : List Char → List Nat)
    (bucket : Bucket) (buf : List Nat) (i : Nat)
    (h : i < bucketLo bucket ∨ bucketEnd bucket ≤ i) :
    (fixBytecode engineCompile bucket buf)[i]? = buf[i]? := by
  have l1 : (subarray (engineCompile refSource) 12 16).length ≤ 4 := by
    rw [subarray_length]; omega
  have l2 : (subarray (engineCompile refSource) 16 20).length ≤ 4 := by
    rw [subarray_length]; omega
  have l3 : (subarray (engineCompile refSource) 20 24).length ≤ 4 := by
    rw [subarray_length]; omega
  match bucket with
  | .legacy =>
      simp only [bucketLo, bucketEnd] at h
      simp only [fixBytecode]
      rw [bufCopy_getElem?_out _ _ _ _ (by omega)]
      rw [bufCopy_getElem?_out _ _ _ _ (by omega)]
  | .modern =>
      simp only [bucketLo, bucketEnd] at h
      simp only [fixBytecode]
      rw [bufCopy_getElem?_out _ _ _ _ (by omega)]
  | .catchAll =>
      simp only [bucketLo, bucketEnd] at h
      simp only [fixBytecode]
      rw [bufCopy_getElem?_out _ _ _ _ (by omega)]
      rw [bufCopy_getElem?_out _ _ _ _ (by omega)]

theorem fixBytecode_length (engineCompile : List Char → List Nat)
    (bucket : Bucket) (buf : List Nat) :
    (fixBytecode engineCompile bucket buf).length = buf.length := by
  match bucket with
  | .legacy => rw [fixBytecode]; rw [bufCopy_length, bufCopy_length]
  | .modern => rw [fixBytecode]; rw [bufCopy_length]
  | .catchAll => rw [fixBytecode]; rw [bufCopy_length, bufCopy_length]

/-- C2: for every supported bucket, after `fixBytecode` the bucket's patched
4-byte ranges of the target equal the corresponding ranges of the buffer
freshly compiled from the fixed reference source by the running engine,
provided both buffers reach past the bucket's last patched offset. -/
theorem fixBytecode_patched_ranges_eq_reference
    (engineCompile : List Char → List Nat) (bucket : Bucket) (buf : List Nat)
    (hd : bucketEnd bucket ≤ (engineCompile refSource).length)
    (hb : bucketEnd bucket ≤ buf.length) :
    ∀ s ∈ bucketStarts bucket,
      subarray (fixBytecode engineCompile bucket buf) s (s + 4) =
        subarray (engineCompile refSource) s (s + 4) := by
  intro s hs
  have hse : s + 4 ≤ bucketEnd bucket := by
    match bucket with
    | .legacy => simp only [bucketStarts, List.mem_cons, List.mem_singleton,
        List.not_mem_nil, or_false] at hs; rcases hs with h | h <;> simp [h, bucketEnd]
    | .modern => simp only [bucketStarts, List.mem_singleton] at hs
                 simp [hs, bucketEnd]
    | .catchAll => simp only [bucketStarts, List.mem_cons, List.mem_singleton,
        List.not_mem_nil, or_false] at hs; rcases hs with h | h <;> simp [h, bucketEnd]
  apply List.ext_getElem?
  intro j
  by_cases hj : j < 4
  · rw [getElem?_subarray _ _ _ _ (by omega), getElem?_subarray _ _ _ _ (by omega)]
    exact fixBytecode_getElem?_in engineCompile bucket buf s (s + j) hd hb hs
      (by omega) (by omega)
  · have e1 : (subarray (fixBytecode engineCompile bucket buf) s (s + 4)).length ≤ 4 := by
      rw [subarray_length]; omega
    have e2 : (subarray (engineCompile refSource) s (s + 4)).length ≤ 4 := by
      rw [subarray_length]; omega
    rw [List.getElem?_eq_none (by omega), List.getElem?_eq_none (by omega)]

/-- Witness for C2: a concrete engine and target in the catch-all bucket,
both patched ranges checked explicitly. -/
theorem fixBytecode_patched_ranges_eq_reference_witness :
    subarray (fixBytecode (fun _ => List.range 32) Bucket.catchAll
        (List.replicate 32 9)) 12 (12 + 4) = subarray (List.range 32) 12 (12 + 4) ∧
      subarray (fixBytecode (fun _ => List.range 32) Bucket.catchAll
        (List.replicate 32 9)) 16 (16 + 4) = subarray (List.range 32) 16 (16 + 4) :=
  ⟨fixBytecode_patched_ranges_eq_reference (fun _ => List.range 32)
      Bucket.catchAll (List.replicate 32 9) (by decide) (by decide) 12 (by decide),
    fixBytecode_patched_ranges_eq_reference (fun _ => List.range 32)
      Bucket.catchAll (List.replicate 32 9) (by decide) (by decide) 16 (by decide)⟩

/-- C9: `fixBytecode` is a pure in-memory transformation that preserves the
buffer's length and leaves every byte outside the bucket's patched offset
region (offsets below `bucketLo`, or at/after `bucketEnd`) unchanged. -/
theorem fixBytecode_frame (engineCompile : List Char → List Nat)
    (bucket : Bucket) (buf : List Nat) :
    (fixBytecode engineCompile bucket buf).length = buf.length ∧
      ∀ i : Nat, (i < bucketLo bucket ∨ bucketEnd bucket ≤ i) →
        (fixBytecode engineCompile bucket buf)[i]? = buf[i]? :=
  ⟨fixBytecode_length engineCompile bucket buf,
    fun i h => fixBytecode_getElem?_out engineCompile bucket buf i h⟩

/-- Witness for C9: legacy bucket on a concrete 32-byte buffer, checking an
offset below and an offset above the patched region. -/
theorem fixBytecode_frame_witness :
    (fixBytecode (fun _ => List.range 32) Bucket.legacy (List.range 32))[15]? =
        (List.range 32)[15]? ∧
      (fixBytecode (fun _ => List.range 32) Bucket.legacy (List.range 32))[24]? =
        (List.range 32)[24]? :=
  ⟨(fixBytecode_frame (fun _ => List.range 32) Bucket.legacy (List.range 32)).2 15
      (Or.inl (by decide)),
    (fixBytecode_frame (fun _ => List.range 32) Bucket.legacy (List.range 32)).2 24
      (Or.inr (by decide))⟩

/-- Witness for C3's amended theorem at declared lengths 0, 1 and 7. -/
theorem dummyCode_length_amended_witness :
    dummyCode (readSourceHash .modern [1, 0, 0xde, 0xc0, 0, 0, 0, 0, 0, 0, 0, 0]) = [] ∧
      (dummyCode (readSourceHash .modern
        [1, 0, 0xde, 0xc0, 0, 0, 0, 0, 7, 0, 0, 0])).length = 7 := by
  constructor
  · exact (dummyCode_length_amended .modern
      [1, 0, 0xde, 0xc0, 0, 0, 0, 0, 0, 0, 0, 0]).1 (by decide)
  · exact (dummyCode_length_amended .modern
      [1, 0, 0xde, 0xc0, 0, 0, 0, 0, 7, 0, 0, 0]).2 (by decide)


/-- C7: a buffer failing the format check is brotli-decompressed and
re-checked; when the decompressed result still fails the check the load
fails with the `Invalid bytecode buffer` assertion (`InvalidBytecode`). -/
theorem generateScript_invalid_after_decompress
    (engineCompile : List Char → List Nat)
    (brotliDecompress : List Nat → Option (List Nat))
    (accepts : List Char → List Nat → Bool) (bucket : Bucket)
    (buf decompressed : List Nat)
    (h1 : isBufferV8Bytecode (.buf buf) = false)
    (h2 : brotliDecompress buf = some decompressed)
    (h3 : isBufferV8Bytecode (.buf decompressed) = false) :
    generateScript engineCompile brotliDecompress accepts bucket buf =
      .error .invalidBytecode := by
  simp [generateScript, h1, h2, h3]

/-- Witness for C7: ten zero bytes, decompressing to a still-invalid buffer. -/
theorem generateScript_invalid_after_decompress_witness :
    generateScript toyCompile (fun _ => some [1, 2, 3]) toyAccepts Bucket.modern
      [0, 0, 0, 0, 0, 0, 0, 0, 0, 0] = .error .invalidBytecode :=
  generateScript_invalid_after_decompress toyCompile (fun _ => some [1, 2, 3])
    toyAccepts Bucket.modern [0, 0, 0, 0, 0, 0, 0, 0, 0, 0] [1, 2, 3]
    (by decide) rfl (by decide)

/-- When the reference buffer's patched ranges already agree with the
target's (as for two buffers produced by the same engine build),
`fixBytecode` is the identity. -/
theorem fixBytecode_eq_self_of_flags_agree (engineCompile : List Char → List Nat)
    (bucket : Bucket) (buf : List Nat)
    (hd : bucketEnd bucket ≤ (engineCompile refSource).length)
    (hb : bucketEnd bucket ≤ buf.length)
    (hflags : ∀ s ∈ bucketStarts bucket,
      subarray (engineCompile refSource) s (s + 4) = subarray buf s (s + 4)) :
    fixBytecode engineCompile bucket buf = buf := by
  apply List.ext_getElem?
  intro i
  by_cases hcase : i < bucketLo bucket ∨ bucketEnd bucket ≤ i
  · exact fixBytecode_getElem?_out engineCompile bucket buf i hcase
  · push_neg at hcase
    have hin : ∃ s, s ∈ bucketStarts bucket ∧ s ≤ i ∧ i < s + 4 := by
      match bucket with
      | .legacy =>
          simp only [bucketLo, bucketEnd] at hcase
          by_cases h20 : i < 20
          · exact ⟨16, by simp [bucketStarts], by omega, by omega⟩
          · exact ⟨20, by simp [bucketStarts], by omega, by omega⟩
      | .modern =>
          simp only [bucketLo, bucketEnd] at hcase
          exact ⟨12, by simp [bucketStarts], by omega, by omega⟩
      | .catchAll =>
          simp only [bucketLo, bucketEnd] at hcase
          by_cases h16 : i < 16
          · exact ⟨12, by simp [bucketStarts], by omega, by omega⟩
          · exact ⟨16, by simp [bucketStarts], by omega, by omega⟩
    obtain ⟨s, hs, hlo, hhi⟩ := hin
    rw [fixBytecode_getElem?_in engineCompile bucket buf s i hd hb hs hlo hhi]
    have h2 := congrArg (fun l => l[i - s]?) (hflags s hs)
    simp only at h2
    rw [getElem?_subarray _ _ _ _ (by omega), getElem?_subarray _ _ _ _ (by omega)] at h2
    have hsi : s + (i - s) = i := by omega
    rwa [hsi] at h2

/-- C1: the compile-then-rehydrate round trip.  The engine itself is opaque,
so its guarantees are hypotheses: the compiled buffer has a valid header and
reaches past the bucket's patched region, two same-engine compiles agree on
the patched flag ranges, the engine accepts the cached data against the
synthesized placeholder, and executing the cached unit observably equals
executing the source.  Under those, `runBytecode` of `compileCode S` yields
exactly the result of executing `S` directly. -/
theorem runBytecode_compileCode_roundTrip {V : Type}
    (engineCompile : List Char → List Nat)
    (brotliCompress : List Nat → List Nat)
    (brotliDecompress : List Nat → Option (List Nat))
    (accepts : List Char → List Nat → Bool)
    (runCached : List Nat → V) (runSource : List Char → V)
    (bucket : Bucket) (S : List Char)
    (hvalid : isBufferV8Bytecode (.buf (engineCompile S)) = true)
    (hlenS : bucketEnd bucket ≤ (engineCompile S).length)
    (hlenRef : bucketEnd bucket ≤ (engineCompile refSource).length)
    (hflags : ∀ s ∈ bucketStarts bucket,
      subarray (engineCompile refSource) s (s + 4) =
        subarray (engineCompile S) s (s + 4))
    (haccept : accepts (dummyCode (readSourceHash bucket (engineCompile S)))
      (engineCompile S) = true)
    (hrun : runCached (engineCompile S) = runSource S) :
    runBytecode engineCompile brotliDecompress accepts runCached bucket
      (compileCode engineCompile brotliCompress S false) =
      .ok (runSource S) := by
  have hc : compileCode engineCompile brotliCompress S false = engineCompile S := rfl
  have hfix : fixBytecode engineCompile bucket (engineCompile S) = engineCompile S :=
    fixBytecode_eq_self_of_flags_agree engineCompile bucket (engineCompile S)
      hlenRef hlenS hflags
  rw [runBytecode, hc]
  simp only [generateScript, hvalid, if_true, hfix, haccept, Except.map]
  rw [hrun]

/-- Witness for C1: a concrete stand-in engine whose observable result is the
compiled source's length; compiling then rehydrating `1+1` runs to 3. -/
theorem runBytecode_compileCode_roundTrip_witness :
    runBytecode toyCompile (fun _ => none) toyAccepts toyRun Bucket.modern
      (compileCode toyCompile (fun l => l) srcW false) = .ok srcW.length :=
  runBytecode_compileCode_roundTrip toyCompile (fun l => l) (fun _ => none)
    toyAccepts toyRun (fun sourceText => sourceText.length) Bucket.modern srcW
    (by decide) (by decide) (by decide) (by decide) (by decide) (by decide)


/-- Folding a stdout-data-only prefix only appends the chunks to `data`. -/
theorem foldl_step_dataOnly (brotliCompress : List Nat → List Nat)
    (compress : Bool) (pre : List CEvent) :
    ∀ st : CEState, isDataOnly pre = true →
      pre.foldl (step brotliCompress compress) st =
        { st with data := st.data ++ collectData pre } := by
  induction pre with
  | nil => intro st _; simp [collectData]
  | cons e rest ih =>
      intro st hpre
      match e with
      | .stdoutData chunk =>
          simp only [List.foldl_cons, step]
          rw [ih _ (by simpa [isDataOnly] using hpre)]
          simp [collectData, List.flatMap_cons]
      | .stdoutError => simp [isDataOnly] at hpre
      | .stdoutEnd => simp [isDataOnly] at hpre
      | .exited c => simp [isDataOnly] at hpre
      | .procError => simp [isDataOnly] at hpre

/-- C5 counterexample: a trace in which stdout ends but the child never
exits still resolves the promise (with the accumulated data), because
`onEnd` is registered on stdout `end` as well as on process `exit`. -/
theorem compileElectronCode_resolves_without_exit_cex :
    (runEvents (fun l => l) false
        [CEvent.stdoutData [7], CEvent.stdoutEnd]).settled =
      some (Except.ok [7]) ∧
      hasExited [CEvent.stdoutData [7], CEvent.stdoutEnd] = false := by
  decide

/-- C5 amended: the promise resolves at the FIRST stdout `end` or process
`exit` event — not strictly on process exit — with the stdout data
accumulated so far, compressed when the compress option is set. -/
theorem compileElectronCode_resolves_on_first_end_or_exit
    (brotliCompress : List Nat → List Nat) (compress : Bool)
    (pre : List CEvent) (e : CEvent) (hpre : isDataOnly pre = true)
    (he : e = CEvent.stdoutEnd ∨ ∃ c, e = CEvent.exited c) :
    (runEvents brotliCompress compress (pre ++ [e])).settled =
      some (.ok (if compress then brotliCompress (collectData pre)
        else collectData pre)) := by
  rw [runEvents, List.foldl_append,
    foldl_step_dataOnly brotliCompress compress pre initialState hpre]
  rcases he with he | ⟨c, he⟩ <;> subst he <;>
    simp [step, onEnd, settle, initialState]

/-- Witness for C5's amended theorem: one data chunk then stdout `end`. -/
theorem compileElectronCode_resolves_on_first_end_or_exit_witness :
    (runEvents (fun l => l) false
        ([CEvent.stdoutData [7]] ++ [CEvent.stdoutEnd])).settled =
      some (Except.ok [7]) :=
  compileElectronCode_resolves_on_first_end_or_exit (fun l => l) false
    [CEvent.stdoutData [7]] CEvent.stdoutEnd (by decide) (Or.inl rfl)

/-- C6 counterexample: a child that emits one chunk and exits with code 1
leaves the promise RESOLVED with the partial data — not rejected, and the
partial output is not discarded — because the `exit` handler ignores the
exit code and no handler rejects on stream errors. -/
theorem compileElectronCode_nonzero_exit_resolves_cex :
    (runEvents (fun l => l) false
        [CEvent.stdoutData [5], CEvent.exited 1]).settled =
      some (Except.ok [5]) := by
  decide

/-- C6 amended: process exit resolves the promise with the accumulated
output whatever the exit code; only the child-process `error` event (a
spawn-level failure) rejects, with the underlying error; stdout stream
`error` events are logged only and change nothing. -/
theorem compileElectronCode_settlement_amended
    (brotliCompress : List Nat → List Nat) (compress : Bool)
    (pre : List CEvent) (hpre : isDataOnly pre = true) :
    (∀ c : Int,
        (runEvents brotliCompress compress (pre ++ [CEvent.exited c])).settled =
          some (.ok (if compress then brotliCompress (collectData pre)
            else collectData pre))) ∧
      (runEvents brotliCompress compress (pre ++ [CEvent.procError])).settled =
        some (.error .procSpawnError) ∧
      (∀ s : CEState, step brotliCompress compress s CEvent.stdoutError = s) := by
  refine ⟨fun c => ?_, ?_, fun s => rfl⟩
  · rw [runEvents, List.foldl_append,
      foldl_step_dataOnly brotliCompress compress pre initialState hpre]
    simp [step, onEnd, settle, initialState]
  · rw [runEvents, List.foldl_append,
      foldl_step_dataOnly brotliCompress compress pre initialState hpre]
    simp [step, settle, initialState]

/-- Witness for C6's amended theorem: exit code 1 resolves with the data,
a process error rejects, a stdout error is inert. -/
theorem compileElectronCode_settlement_amended_witness :
    (runEvents (fun l => l) false
        ([CEvent.stdoutData [5]] ++ [CEvent.exited 1])).settled =
      some (Except.ok [5]) ∧
      (runEvents (fun l => l) false
          ([CEvent.stdoutData [5]] ++ [CEvent.procError])).settled =
        some (Except.error PromiseErr.procSpawnError) ∧
      step (fun l => l) false initialState CEvent.stdoutError = initialState :=
  ⟨(compileElectronCode_settlement_amended (fun l => l) false
      [CEvent.stdoutData [5]] (by decide)).1 1,
    (compileElectronCode_settlement_amended (fun l => l) false
      [CEvent.stdoutData [5]] (by decide)).2.1,
    (compileElectronCode_settlement_amended (fun l => l) false
      [CEvent.stdoutData [5]] (by decide)).2.2 initialState⟩

/-- C8, evaluated at the failing input: with `compress = true`, the
in-process path of `compileFile` produces a brotli-compressed buffer, but
the electron path returns the child's raw output uncompressed, because
`compileFile` passes the `compress` flag as `compileElectronCode`'s
`options` parameter (and the object holding `electronPath` as a discarded
third argument), so `options.compress` is `undefined`.  The stand-in
compressor `fun l => 0 :: l` visibly changes every buffer. -/
theorem compileFile_electron_compress_bug :
    compileFileBuffer toyCompile (fun l => 0 :: l) srcW true true [[1, 2, 3]] =
        some (Except.ok [1, 2, 3]) ∧
      (fun l => (0 : Nat) :: l) [1, 2, 3] ≠ [1, 2, 3] ∧
      compileFileBuffer toyCompile (fun l => 0 :: l) srcW false true [] =
        some (Except.ok (0 :: toyCompile srcW)) := by
  refine ⟨by decide, by decide, ?_⟩
  simp [compileFileBuffer, compileCode]

end Bytenode
